import Mathlib

/-!
Verification of the notebook backend's retrieval-augmented context pipeline
and streaming tool-call orchestration loop.

The Python source (`backend/pdf_processor.py`, `backend/server.py`) is shallowly
embedded below: pure functions become Lean functions, `while` loops become
fueled recursions (a `none` result means the loop did not finish within the
given fuel), exceptions become `Option`/sum results, and the database tables
touched by the storage layer become explicit lists of rows.  Python `str` is
modelled as `String`/`List Char`, Python `int` as `Int`/`Nat` (Python integers
are unbounded, so no modular arithmetic is needed), and floating-point
similarity scores as `ℚ` (the code only ever compares scores, never does
arithmetic on them, so any linearly ordered field is a faithful model of the
orderings involved).
-/

namespace Notebook

/-! ## Python primitives: `str.strip`, slicing, truthiness -/

/-- The whitespace characters recognised by Python's `str.strip()` (ASCII part,
which covers every string manipulated by this backend). -/
def pyWhitespace (c : Char) : Bool :=
  c = ' ' || c = '\t' || c = '\n' || c = '\r' || c = '\x0b' || c = '\x0c'

/-- Python `s.strip()` on a list of characters. -/
def pyStrip (s : List Char) : List Char :=
  ((s.dropWhile pyWhitespace).reverse.dropWhile pyWhitespace).reverse

/-- Python `s.strip()` on a `String`. -/
def pyStripS (s : String) : String :=
  (pyStrip s.toList).asString

/-- Normalise one endpoint of a Python slice `s[a:b]` to a list index:
negative indices count from the end, and both ends are clamped to `[0, n]`. -/
def pySliceIdx (n : Nat) (i : Int) : Nat :=
  if i < 0 then (i + n).toNat else min i.toNat n

/-- Python slice `s[a:b]`. -/
def pySlice (s : List Char) (a b : Int) : List Char :=
  let lo := pySliceIdx s.length a
  let hi := pySliceIdx s.length b
  (s.drop lo).take (hi - lo)

/-! ## `TextChunker.chunk_text` (pdf_processor.py lines 112-138)

```python
while start < len(text):
    end = start + self.chunk_size
    chunk_text = text[start:end]
    if len(chunk_text.strip()) > 50:
        chunks.append({... 'chunk_index': chunk_index, 'char_start': start, 'char_end': end})
        chunk_index += 1
    start += (self.chunk_size - self.overlap)
```

The loop is embedded with fuel; `none` means the fuel ran out with the loop
still running.  `start` is an `Int` because `chunk_size - overlap` may be
negative in Python. -/

structure PChunk where
  text : List Char
  page_number : Nat
  chunk_index : Nat
  char_start : Int
  char_end : Int
  deriving Repr, DecidableEq

def chunkTextLoop (chunkSize overlap pageNumber : Nat) (text : List Char) :
    Nat → Int → Nat → List PChunk → Option (List PChunk)
  | 0, _, _, _ => none
  | fuel + 1, start, idx, acc =>
    if start < (text.length : Int) then
      let e : Int := start + (chunkSize : Int)
      let ct := pySlice text start e
      if 50 < (pyStrip ct).length then
        chunkTextLoop chunkSize overlap pageNumber text fuel
          (start + ((chunkSize : Int) - (overlap : Int))) (idx + 1)
          (acc ++ [⟨ct, pageNumber, idx, start, e⟩])
      else
        chunkTextLoop chunkSize overlap pageNumber text fuel
          (start + ((chunkSize : Int) - (overlap : Int))) idx acc
    else some acc

/-- `TextChunker.chunk_text`, run with enough fuel for every terminating
execution (when `overlap < chunk_size` the start strictly increases each step,
so `length + 1` iterations always suffice). -/
def chunk_text (chunkSize overlap pageNumber : Nat) (text : List Char) :
    Option (List PChunk) :=
  chunkTextLoop chunkSize overlap pageNumber text (text.length + 1) 0 0 []

/-! ## `HandwritingProcessor._chunk_text` (pdf_processor.py lines 1134-1166)

This chunker clamps the next start to the current window's end whenever the
naive advance would not move forward (`if next_start <= start: next_start = end`),
so it terminates for every input. -/

structure HChunk where
  chunk_index : Nat
  text : List Char
  char_start : Nat
  char_end : Nat
  deriving Repr, DecidableEq

def hwChunkLoop (chunkSize overlap : Nat) (text : List Char) :
    Nat → Nat → Nat → List HChunk → Option (List HChunk)
  | 0, _, _, _ => none
  | fuel + 1, start, idx, acc =>
    if start < text.length then
      let e := min text.length (start + chunkSize)
      let ct := (text.drop start).take (e - start)
      let acc' := if (pyStrip ct) ≠ [] then acc ++ [⟨idx, ct, start, e⟩] else acc
      let idx' := if (pyStrip ct) ≠ [] then idx + 1 else idx
      if e = text.length then some acc'
      else
        hwChunkLoop chunkSize overlap text fuel
          (if e - overlap ≤ start then e else e - overlap) idx' acc'
    else some acc

/-- `HandwritingProcessor._chunk_text` after whitespace normalisation
(the caller-side `" ".join(text.split())` is applied before chunking, so this
definition takes the already-normalised text). -/
def hw_chunk_text (chunkSize overlap : Nat) (normalized : List Char) :
    Option (List HChunk) :=
  if normalized = [] then some []
  else
    (hwChunkLoop chunkSize overlap normalized (normalized.length + 1) 0 0 []).map
      (fun chunks =>
        if chunks = [] then [⟨0, normalized, 0, normalized.length⟩] else chunks)

/-! ## Stable sorting by key

Python's `sorted(..., key=f)` and `list.sort(key=f, reverse=True)` are stable:
elements with equal keys keep their original relative order (with
`reverse=True` the comparisons are reversed but equal elements still keep
their original order, per the language reference).  A stable sort is
extensionally determined by that specification, so it is modelled by stable
insertion sorts. -/

def insertAscBy {β κ : Type _} [LinearOrder κ] (key : β → κ) (x : β) :
    List β → List β
  | [] => [x]
  | y :: ys => if key x ≤ key y then x :: y :: ys else y :: insertAscBy key x ys

/-- Stable ascending sort by key: Python `sorted(l, key=key)`. -/
def sortAscBy {β κ : Type _} [LinearOrder κ] (key : β → κ) : List β → List β
  | [] => []
  | x :: xs => insertAscBy key x (sortAscBy key xs)

def insertDescBy {β κ : Type _} [LinearOrder κ] (key : β → κ) (x : β) :
    List β → List β
  | [] => [x]
  | y :: ys => if key y ≤ key x then x :: y :: ys else y :: insertDescBy key x ys

/-- Stable descending sort by key: Python `l.sort(key=key, reverse=True)`. -/
def sortDescBy {β κ : Type _} [LinearOrder κ] (key : β → κ) : List β → List β
  | [] => []
  | x :: xs => insertDescBy key x (sortDescBy key xs)

/-! ## `EmbeddingGenerator.generate_embeddings` (pdf_processor.py lines 153-179)

```python
for i in range(0, len(texts), batch_size):
    batch = texts[i:i + batch_size]
    response = self.client.embeddings.create(model=self.model, input=batch)
    batch_embeddings = [item.embedding for item in sorted(response.data, key=lambda x: x.index)]
    all_embeddings.extend(batch_embeddings)
return all_embeddings
```

The provider is abstracted as a function from a batch to a list of
index-tagged vectors (`response.data`); a well-behaved provider returns a
permutation of the batch's embeddings tagged with their within-batch index. -/

/-- The index-tagged embeddings of a batch in input order: what a provider
returns up to permutation. -/
def tagged {α : Type _} (emb : String → α) (b : List String) : List (Nat × α) :=
  (b.map emb).enum

def embedBatches {α : Type _} (provider : List String → List (Nat × α))
    (bs : Nat) : Nat → List String → List α
  | _, [] => []
  | 0, _ :: _ => []
  | fuel + 1, t :: ts =>
    (sortAscBy Prod.fst (provider ((t :: ts).take bs))).map Prod.snd ++
      embedBatches provider bs fuel ((t :: ts).drop bs)

/-- `EmbeddingGenerator.generate_embeddings`.  A batch size of zero makes
Python's `range(0, n, 0)` raise, modelled by `none`; otherwise each
iteration consumes at least one text, so `texts.length` iterations suffice. -/
def generate_embeddings {α : Type _} (provider : List String → List (Nat × α))
    (texts : List String) (batch_size : Nat) : Option (List α) :=
  if batch_size = 0 then none
  else some (embedBatches provider batch_size texts.length texts)

/-! ## `SupabaseRAGStorage.search_context_for_shape_ids` (lines 935-962)

```python
matches.extend(self.search_handwriting_context(...))
matches.extend(self.search_pdf_context(...))
matches.extend(self.search_typed_context(...))
matches.sort(key=lambda x: x.get("similarity", 0), reverse=True)
return matches
```

The three per-source searches call server-side match functions (external
collaborators), so their hit lists are taken as inputs here.  Only the fields
relevant to the merge are modelled; the sort key reads the similarity with a
default of 0 when absent. -/

structure Hit where
  source_type : String
  chunk_id : Nat
  similarity : Option ℚ
  deriving Repr, DecidableEq

def hitKey (h : Hit) : ℚ := h.similarity.getD 0

def search_context_for_shape_ids (hw pdf typed : List Hit) : List Hit :=
  sortDescBy hitKey (hw ++ pdf ++ typed)

/-! ## `generate_c1_response` round loop (server.py lines 509-731)

```python
max_tool_call_rounds = 10
tool_call_round = 0
while tool_call_round < max_tool_call_rounds:
    tool_call_round += 1
    stream = await client.chat.completions.create(**completion_params)
    ...
if tool_call_executed: continue
elif last_finish_reason and last_finish_reason != "tool_calls": break
elif last_finish_reason == "tool_calls" and not current_tool_call: break
else: break
yield "data: [DONE]\n\n"
```

A provider turn (one full streamed round) is abstracted as its outcome: a
tool call was executed (the code breaks out of the stream and `continue`s the
while loop), or the stream ended with some last finish reason and no executed
tool (every such branch `break`s), or the stream raised/timed out (an error
event is yielded, then `break`).  `[DONE]` is yielded after the loop in every
case. -/

inductive RoundOutcome where
  | toolExecuted
  | finished (lastFinishReason : Option String)
  | streamError
  deriving Repr, DecidableEq

structure LoopResult where
  rounds : Nat
  errorEvent : Bool
  doneEvent : Bool
  deriving Repr, DecidableEq

def roundLoop (turn : Nat → RoundOutcome) : Nat → Nat → LoopResult
  | 0, opened => ⟨opened, false, true⟩
  | left + 1, opened =>
    match turn opened with
    | .toolExecuted => roundLoop turn left (opened + 1)
    | .finished _ => ⟨opened + 1, false, true⟩
    | .streamError => ⟨opened + 1, true, true⟩

/-- The round loop of `generate_c1_response`: at most 10 provider rounds,
`turn n` being the outcome of the round opened after `n` earlier rounds. -/
def generate_c1_response_rounds (turn : Nat → RoundOutcome) : LoopResult :=
  roundLoop turn 10 0

/-! ## Python values and `parse_tool_arguments` (server.py lines 366-401)

`json.loads` is an external library function; it is abstracted as a function
`String → Option PyVal` (`none` models `json.JSONDecodeError`, the only
exception it raises on string input given the flat argument payloads used
here). -/

inductive PyVal where
  | none
  | bool (b : Bool)
  | int (i : Int)
  | str (s : String)
  | list (l : List PyVal)
  | dict (d : List (String × PyVal))
  deriving Repr

/-- Python truthiness for the modelled values. -/
def truthy : PyVal → Bool
  | .none => false
  | .bool b => b
  | .int i => decide (i ≠ 0)
  | .str s => !s.isEmpty
  | .list l => !l.isEmpty
  | .dict d => !d.isEmpty

def PyVal.isDict : PyVal → Bool
  | .dict _ => true
  | _ => false

/-- Python `d.get(k)` (returns `None` when the key is missing). -/
def pyDictGet (d : List (String × PyVal)) (k : String) : PyVal :=
  match d.find? (fun p => decide (p.1 = k)) with
  | some p => p.2
  | Option.none => .none

/-- `parse_tool_arguments`: `None`/missing → `{}`; an already-parsed dict is
returned as is; a string is parsed unless blank, with parse errors mapped to
`{}`; anything else falls back to `{}`. -/
def parse_tool_arguments (jsonLoads : String → Option PyVal) : PyVal → PyVal
  | .none => .dict []
  | .dict d => .dict d
  | .str s =>
    if pyStripS s = "" then .dict []
    else
      match jsonLoads s with
      | some v => v
      | Option.none => .dict []
  | _ => .dict []

/-- Modelled from the spec side for comparison with the code: "returns the
parsed arguments: the dict itself if already parsed, the value parsed from a
string, and `{}` in every other case". -/
def parse_tool_arguments_spec (jsonLoads : String → Option PyVal) : PyVal → PyVal
  | .dict d => .dict d
  | .str s => (jsonLoads s).getD (.dict [])
  | _ => .dict []

/-- A concrete executable fragment of Python's `json.loads`: accepts a
non-empty all-digit literal after stripping (`json.loads("5") == 5`) and
rejects everything else.  Used to instantiate theorems whose parser argument
is abstract. -/
def jsonLoadsFrag (s : String) : Option PyVal :=
  let t := (pyStripS s).toList
  if t ≠ [] ∧ t.all Char.isDigit then
    Option.some (PyVal.int (t.foldl (fun acc c => acc * 10 + (c.toNat - 48)) 0))
  else Option.none

/-! ## Finish-time tool-call validation (server.py lines 590-652)

When a chunk carries `finish_reason == "tool_calls"` and a tool call has been
accumulated, the call is validated before execution.  Every failed check does
`current_tool_call = None; tool_call_id = None; continue` — the call is
dropped silently.  Only `getImageSrc` has an execution branch; a validated
call with any other name executes nothing and leaves the accumulator state in
place.  A Python-level exception (e.g. `.get` on a non-dict) would escape to
the stream handler and surface an error event. -/

structure ToolCall where
  name : String
  arguments : String
  deriving Repr, DecidableEq

inductive VR where
  | discarded
  | execute (name : String) (args : PyVal)
  | pyError
  deriving Repr

def validate_finish (jsonLoads : String → Option PyVal) (tc : ToolCall) : VR :=
  if pyStripS tc.name = "" then .discarded
  else if tc.arguments ≠ "" ∧
      ((pyStripS tc.arguments).length < 3 ∨
        (pyStripS tc.arguments).toList.head? ≠ some '\x7b' ∨
        (pyStripS tc.arguments).toList.getLast? ≠ some '\x7d') then .discarded
  else if truthy (parse_tool_arguments jsonLoads (PyVal.str tc.arguments)) = false ∧
      tc.arguments ≠ "" ∧ pyStripS tc.arguments ≠ "" then .discarded
  else if pyStripS tc.name = "getImageSrc" then
    if truthy (parse_tool_arguments jsonLoads (PyVal.str tc.arguments)) = false then
      .discarded
    else
      match parse_tool_arguments jsonLoads (PyVal.str tc.arguments) with
      | .dict d =>
        if truthy (pyDictGet d "altText") = false then .discarded
        else .execute (pyStripS tc.name) (.dict d)
      | _ => .pyError
  else .execute (pyStripS tc.name) (parse_tool_arguments jsonLoads (PyVal.str tc.arguments))

structure FinishOut where
  newCall : Option ToolCall
  executed : Bool
  errorEvent : Bool
  deriving Repr, DecidableEq

/-- The effect of processing `finish_reason == "tool_calls"` on the
accumulator state: a discarded call resets the state; a validated
`getImageSrc` call executes and resets; a validated call with any other name
executes nothing and keeps the state; a Python exception surfaces an error
event. -/
def finish_step (jsonLoads : String → Option PyVal) (st : Option ToolCall) :
    FinishOut :=
  match st with
  | Option.none => ⟨Option.none, false, false⟩
  | Option.some tc =>
    match validate_finish jsonLoads tc with
    | .discarded => ⟨Option.none, false, false⟩
    | .execute n _ =>
      if n = "getImageSrc" then ⟨Option.none, true, false⟩
      else ⟨Option.some tc, false, false⟩
    | .pyError => ⟨Option.some tc, false, true⟩

def getAltText : PyVal → PyVal
  | .dict d => pyDictGet d "altText"
  | _ => .none

/-- The claim's validation-failure conditions, amended to match the code: the
length/brace checks apply to the *trimmed* argument string and only when the
argument string is non-empty. -/
def finishFails (jsonLoads : String → Option PyVal) (tc : ToolCall) : Prop :=
  pyStripS tc.name = "" ∨
    (tc.arguments ≠ "" ∧
      ((pyStripS tc.arguments).length < 3 ∨
        (pyStripS tc.arguments).toList.head? ≠ some '\x7b' ∨
        (pyStripS tc.arguments).toList.getLast? ≠ some '\x7d')) ∨
    (pyStripS tc.arguments ≠ "" ∧ jsonLoads tc.arguments = Option.none) ∨
    (pyStripS tc.name = "getImageSrc" ∧
      (truthy (parse_tool_arguments jsonLoads (PyVal.str tc.arguments)) = false ∨
        truthy (getAltText (parse_tool_arguments jsonLoads (PyVal.str tc.arguments))) =
          false))

/-! ## Batched inserts (`insert_chunks`, `insert_handwriting_chunks`,
`replace_typed_note_chunks`, pdf_processor.py lines 347-379, 424-461, 713-747)

A table is a list of rows in storage order; `.insert(batch).execute()`
appends the batch.  All three writers pair chunks with embeddings via
`zip(chunks, embeddings)` (which silently drops the excess of the longer
list) and insert the rows in batches of 50, counting the rows inserted. -/

structure PdfChunkRow where
  document_id : Nat
  page_number : Nat
  chunk_index : Nat
  chunk_text : String
  embedding : List Int
  deriving Repr, DecidableEq

structure HwChunkRow where
  note_id : Nat
  chunk_index : Nat
  chunk_text : String
  embedding : List Int
  deriving Repr, DecidableEq

structure TypedChunkRow where
  note_id : Nat
  chunk_index : Nat
  chunk_text : String
  embedding : List Int
  deriving Repr, DecidableEq

/-- `for i in range(0, len(rows), batch_size): table.insert(rows[i:i+batch_size])`
with a running count of inserted rows; fuel bounds the iterations
(`rows.length` suffices for a positive batch size). -/
def insertInBatches {ρ : Type _} (bs : Nat) :
    Nat → List ρ → List ρ → Nat → List ρ × Nat
  | _, [], table, count => (table, count)
  | 0, _ :: _, table, count => (table, count)
  | fuel + 1, r :: rest, table, count =>
    insertInBatches bs fuel ((r :: rest).drop bs)
      (table ++ (r :: rest).take bs) (count + ((r :: rest).take bs).length)

/-- `SupabaseRAGStorage.insert_chunks` (lines 424-461): builds rows by zipping
chunks with embeddings, inserts them in batches of 50, returns the new table
and the count. -/
def insert_chunks (table : List PdfChunkRow) (document_id : Nat)
    (chunks : List PChunk) (embeddings : List (List Int)) :
    List PdfChunkRow × Nat :=
  let rows := List.zipWith
    (fun (c : PChunk) (e : List Int) =>
      PdfChunkRow.mk document_id c.page_number c.chunk_index c.text.asString e)
    chunks embeddings
  insertInBatches 50 rows.length rows table 0

/-- `SupabaseRAGStorage.insert_handwriting_chunks` (lines 347-379): as
`insert_chunks` but with an early `return 0` when either list is empty. -/
def insert_handwriting_chunks (table : List HwChunkRow) (note_id : Nat)
    (chunks : List HChunk) (embeddings : List (List Int)) :
    List HwChunkRow × Nat :=
  if chunks.isEmpty || embeddings.isEmpty then (table, 0)
  else
    let rows := List.zipWith
      (fun (c : HChunk) (e : List Int) =>
        HwChunkRow.mk note_id c.chunk_index c.text.asString e)
      chunks embeddings
    insertInBatches 50 rows.length rows table 0

/-! ## Typed-note sync (server.py lines 1163-1207, pdf_processor.py 684-747)

`insert_typed_note` upserts by `frame_id` (`on_conflict="frame_id"`): an
existing note for the frame keeps its id, otherwise a fresh row is created.
`replace_typed_note_chunks` deletes every chunk of the note and inserts the
new rows in batches of 50.  `sync_typed_note` builds one chunk per text shape
with embed-able text (chunk_index = position) and calls the replace — but
returns early, leaving existing chunks untouched, when no shape has
embed-able text. -/

structure TypedNote where
  id : Nat
  frame_id : String
  deriving Repr, DecidableEq

structure ChunkPayload where
  text : String
  chunk_index : Nat
  deriving Repr, DecidableEq

def freshNoteId (notes : List TypedNote) : Nat :=
  (notes.map TypedNote.id).foldr max 0 + 1

/-- `SupabaseRAGStorage.insert_typed_note`: upsert by frame id, returning the
note id (the row id is preserved on conflict). -/
def insert_typed_note (notes : List TypedNote) (frame_id : String) :
    List TypedNote × Nat :=
  match notes.find? (fun n => decide (n.frame_id = frame_id)) with
  | some n => (notes, n.id)
  | Option.none => (notes ++ [⟨freshNoteId notes, frame_id⟩], freshNoteId notes)

/-- `SupabaseRAGStorage.replace_typed_note_chunks`: delete all chunks of the
note, then insert the zipped rows in batches of 50 (an empty payload only
deletes). -/
def replace_typed_note_chunks (table : List TypedChunkRow) (note_id : Nat)
    (chunks : List ChunkPayload) (embeddings : List (List Int)) :
    List TypedChunkRow × Nat :=
  if chunks.isEmpty then
    (table.filter (fun r => decide (r.note_id ≠ note_id)), 0)
  else
    let rows := List.zipWith
      (fun (c : ChunkPayload) (e : List Int) =>
        TypedChunkRow.mk note_id c.chunk_index c.text e)
      chunks embeddings
    insertInBatches 50 rows.length rows
      (table.filter (fun r => decide (r.note_id ≠ note_id))) 0

structure TypedDb where
  notes : List TypedNote
  chunks : List TypedChunkRow
  deriving Repr, DecidableEq

/-- The `/api/sync-typed-note` handler's storage effect: upsert the note,
then replace its chunks — unless no shape had embed-able text, in which case
the handler returns without touching the existing chunks. -/
def sync_typed_note (db : TypedDb) (frame_id : String)
    (chunk_texts : List String) (embeddings : List (List Int)) :
    TypedDb × Nat :=
  let upserted := insert_typed_note db.notes frame_id
  if chunk_texts.isEmpty then ({ notes := upserted.1, chunks := db.chunks }, 0)
  else
    let payload := chunk_texts.enum.map (fun p => ChunkPayload.mk p.2 p.1)
    let replaced := replace_typed_note_chunks db.chunks upserted.2 payload embeddings
    ({ notes := upserted.1, chunks := replaced.1 }, replaced.2)

/-! ## Context listing and the retrieval fallback
(pdf_processor.py lines 500-641, server.py lines 404-447)

Tables are lists of rows in storage order; `.in_(ids)` filters preserving
that order, `.order(col)` is modelled as a stable sort by the column (the
rows are returned in some deterministic order; insertion order is kept among
ties), `.limit(n)` takes a prefix.  The `ask_stream` handler computes the
query embedding and runs the semantic search inside a `try`; any exception
falls back to `get_context_for_shape_ids(shape_ids, 5, 5, 5)`. -/

structure HwNote where
  id : Nat
  frame_id : String
  deriving Repr, DecidableEq

structure PdfLink where
  shape_id : String
  document_id : Nat
  deriving Repr, DecidableEq

structure Db where
  hw_notes : List HwNote
  hw_chunks : List HwChunkRow
  pdf_links : List PdfLink
  pdf_chunks : List PdfChunkRow
  typed_notes : List TypedNote
  typed_chunks : List TypedChunkRow
  deriving Repr, DecidableEq

structure CtxEntry where
  source_type : String
  parent_id : Nat
  chunk_index : Option Nat
  page_number : Option Nat
  text : String
  deriving Repr, DecidableEq

/-- `_get_handwriting_notes`: notes whose frame id is among the selected
shape ids (shared by the listing and the semantic search, so both paths scan
the same parents). -/
def get_hw_notes (db : Db) (frame_ids : List String) : List HwNote :=
  db.hw_notes.filter (fun n => frame_ids.contains n.frame_id)

/-- `get_pdf_links`: canvas links whose shape id is selected (shared by both
paths). -/
def db_pdf_links (db : Db) (shape_ids : List String) : List PdfLink :=
  db.pdf_links.filter (fun l => shape_ids.contains l.shape_id)

/-- The typed-notes lookup by frame id (shared by both paths). -/
def get_typed_notes (db : Db) (frame_ids : List String) : List TypedNote :=
  db.typed_notes.filter (fun n => frame_ids.contains n.frame_id)

/-- One handwriting note's listing block:
`select ... .eq(note_id) .order("chunk_index") .limit(n)`. -/
def hwBlock (db : Db) (limit : Nat) (note : HwNote) : List CtxEntry :=
  ((sortAscBy HwChunkRow.chunk_index
        (db.hw_chunks.filter (fun c => decide (c.note_id = note.id)))).take limit).map
    (fun c => ⟨"handwriting", note.id, some c.chunk_index, Option.none, c.chunk_text⟩)

/-- One document's listing block:
`select ... .eq(document_id) .order("page_number") .limit(n)` — the PDF
listing orders by page number, not by chunk index. -/
def pdfBlock (db : Db) (limit : Nat) (link : PdfLink) : List CtxEntry :=
  ((sortAscBy PdfChunkRow.page_number
        (db.pdf_chunks.filter
          (fun c => decide (c.document_id = link.document_id)))).take limit).map
    (fun c => ⟨"pdf", link.document_id, Option.none, some c.page_number, c.chunk_text⟩)

/-- One typed note's listing block, ordered by chunk index. -/
def typedBlock (db : Db) (limit : Nat) (note : TypedNote) : List CtxEntry :=
  ((sortAscBy TypedChunkRow.chunk_index
        (db.typed_chunks.filter (fun c => decide (c.note_id = note.id)))).take limit).map
    (fun c => ⟨"typed", note.id, some c.chunk_index, Option.none, c.chunk_text⟩)

def get_handwriting_context_for_frames (db : Db) (frame_ids : List String)
    (limit : Nat) : List CtxEntry :=
  (get_hw_notes db frame_ids).flatMap (hwBlock db limit)

def get_pdf_context_for_shapes (db : Db) (shape_ids : List String)
    (limit : Nat) : List CtxEntry :=
  (db_pdf_links db shape_ids).flatMap (pdfBlock db limit)

def get_typed_context_for_frames (db : Db) (frame_ids : List String)
    (limit : Nat) : List CtxEntry :=
  (get_typed_notes db frame_ids).flatMap (typedBlock db limit)

/-- `SupabaseRAGStorage.get_context_for_shape_ids` (lines 624-641). -/
def get_context_for_shape_ids (db : Db) (shape_ids : List String)
    (hw_limit pdf_limit typed_limit : Nat) : List CtxEntry :=
  get_handwriting_context_for_frames db shape_ids hw_limit ++
    get_pdf_context_for_shapes db shape_ids pdf_limit ++
    get_typed_context_for_frames db shape_ids typed_limit

/-- The `ask_stream` selection-context step: `semantic` is the outcome of the
`try` block (query embedding + semantic search), `none` meaning it raised;
on failure the handler substitutes the non-semantic listing with per-source
limits 5. -/
def ask_stream_selection_context (db : Db) (shape_ids : List String)
    (semantic : Option (List CtxEntry)) : List CtxEntry :=
  match semantic with
  | some entries => entries
  | Option.none => get_context_for_shape_ids db shape_ids 5 5 5

/-- Modelled from the claim's words, for comparison with the code: the
fallback "returns the first N chunks per matched parent ordered by chunk
index", applied to a PDF document. -/
def claim_pdf_block (db : Db) (limit : Nat) (link : PdfLink) : List CtxEntry :=
  ((sortAscBy PdfChunkRow.chunk_index
        (db.pdf_chunks.filter
          (fun c => decide (c.document_id = link.document_id)))).take limit).map
    (fun c => ⟨"pdf", link.document_id, Option.none, some c.page_number, c.chunk_text⟩)

def claim_pdf_listing (db : Db) (shape_ids : List String) (limit : Nat) :
    List CtxEntry :=
  (db_pdf_links db shape_ids).flatMap (claim_pdf_block db limit)

/-- A store with one linked document holding two chunks on page 1 and one on
page 5 (PDF chunk indices restart on each page). -/
def dbC6 : Db :=
  { hw_notes := [], hw_chunks := [],
    pdf_links := [⟨"s1", 1⟩],
    pdf_chunks := [⟨1, 1, 0, "a", []⟩, ⟨1, 1, 1, "b", []⟩, ⟨1, 5, 0, "c", []⟩],
    typed_notes := [], typed_chunks := [] }

theorem chunkTextLoop_succ (cs ov pg : Nat) (text : List Char) (fuel : Nat)
    (start : Int) (idx : Nat) (acc : List PChunk) :
    chunkTextLoop cs ov pg text (fuel + 1) start idx acc =
      if start < (text.length : Int) then
        let e : Int := start + (cs : Int)
        let ct := pySlice text start e
        if 50 < (pyStrip ct).length then
          chunkTextLoop cs ov pg text fuel (start + ((cs : Int) - (ov : Int)))
            (idx + 1) (acc ++ [⟨ct, pg, idx, start, e⟩])
        else
          chunkTextLoop cs ov pg text fuel (start + ((cs : Int) - (ov : Int))) idx acc
      else some acc := rfl

/-- When `overlap ≥ chunk_size`, the advance `chunk_size - overlap` is
non-positive, so a start that is `≤ 0` stays `≤ 0` forever and the loop never
exits on a non-empty text: no amount of fuel makes it finish. -/
theorem chunkTextLoop_stuck (cs ov pg : Nat) (text : List Char)
    (hov : cs ≤ ov) (htext : text ≠ []) :
    ∀ (fuel : Nat) (start : Int) (idx : Nat) (acc : List PChunk), start ≤ 0 →
      chunkTextLoop cs ov pg text fuel start idx acc = none := by
  intro fuel
  induction fuel with
  | zero => intro start idx acc _; rfl
  | succ n ih =>
    intro start idx acc hstart
    have hlen : (0 : Int) < (text.length : Int) := by
      have : 0 < text.length := List.length_pos.mpr htext
      exact_mod_cast this
    have hcond : start < (text.length : Int) := lt_of_le_of_lt hstart hlen
    have hadv : start + ((cs : Int) - (ov : Int)) ≤ 0 := by
      have : (cs : Int) - (ov : Int) ≤ 0 := by
        have : (cs : Int) ≤ (ov : Int) := by exact_mod_cast hov
        omega
      omega
    rw [chunkTextLoop_succ]
    simp only [hcond, if_true]
    split
    · exact ih _ _ _ hadv
    · exact ih _ _ _ hadv

/-- C1: the claim states that for every window size W and overlap O with
O ≥ W, `chunk_text` terminates within the ceiling bound because the
implementation clamps the next start to the current window's end.
`TextChunker.chunk_text` has no such clamp: with `chunk_size = 5`,
`overlap = 5` and the non-empty text `"abcdef"`, the loop never terminates —
no fuel bound suffices — so the claimed guard is absent from this chunker
(the handwriting chunker below does have it). -/
theorem C1_chunk_text_diverges :
    (∀ fuel : Nat,
        chunkTextLoop 5 5 1 ("abcdef".toList) fuel 0 0 [] = none) ∧
      chunk_text 5 5 1 ("abcdef".toList) = none := by
  constructor
  · intro fuel
    exact chunkTextLoop_stuck 5 5 1 _ (by norm_num) (by decide) fuel 0 0 [] le_rfl
  · exact chunkTextLoop_stuck 5 5 1 _ (by norm_num) (by decide) _ 0 0 [] le_rfl

theorem hwChunkLoop_succ (cs ov : Nat) (text : List Char) (fuel start idx : Nat)
    (acc : List HChunk) :
    hwChunkLoop cs ov text (fuel + 1) start idx acc =
      if start < text.length then
        let e := min text.length (start + cs)
        let ct := (text.drop start).take (e - start)
        let acc' := if (pyStrip ct) ≠ [] then acc ++ [⟨idx, ct, start, e⟩] else acc
        let idx' := if (pyStrip ct) ≠ [] then idx + 1 else idx
        if e = text.length then some acc'
        else hwChunkLoop cs ov text fuel (if e - ov ≤ start then e else e - ov) idx' acc'
      else some acc := rfl

/-- Because of the clamp, the start strictly increases on every iteration, so
`text.length + 1` units of fuel always suffice: the handwriting chunker's loop
terminates on every input (contrast with `chunkTextLoop_stuck`). -/
theorem hwChunkLoop_terminates (cs ov : Nat) (hcs : 1 ≤ cs) (text : List Char) :
    ∀ (fuel start idx : Nat) (acc : List HChunk), start ≤ text.length →
      text.length < start + fuel →
      (hwChunkLoop cs ov text fuel start idx acc).isSome := by
  intro fuel
  induction fuel with
  | zero => intro start idx acc hle h; omega
  | succ n ih =>
    intro start idx acc hle h
    rw [hwChunkLoop_succ]
    by_cases hlt : start < text.length
    · simp only [hlt, if_true]
      have he : start < min text.length (start + cs) := by omega
      by_cases hend : min text.length (start + cs) = text.length
      · simp [hend]
      · simp only [hend, if_false]
        apply ih
        · split <;> omega
        · split <;> omega
    · simp [hlt]

/-! ## C8: chunk coverage for window 1000 / overlap 200 / length 2300 -/

set_option maxRecDepth 8192 in
/-- C8: with window size 1000 and overlap 200 on a text of length 2300, the
window starts visited by `chunk_text` are exactly 0, 800, 1600, and each
window — in particular the final one covering characters 1600-2300 — is kept
if and only if its trimmed content is longer than the 50-character minimum. -/
theorem C8_chunk_starts (s : List Char) (h : s.length = 2300) :
    ∃ l, chunk_text 1000 200 1 s = some l ∧
      l.map PChunk.char_start =
        ([0, 800, 1600] : List Int).filter
          (fun st => decide (50 < (pyStrip (pySlice s st (st + 1000))).length)) := by
  have h0 : (0 : Int) < (s.length : Int) := by rw [h]; norm_num
  have h800 : (800 : Int) < (s.length : Int) := by rw [h]; norm_num
  have h1600 : (1600 : Int) < (s.length : Int) := by rw [h]; norm_num
  have h2400 : ¬ ((2400 : Int) < (s.length : Int)) := by rw [h]; norm_num
  unfold chunk_text
  rw [h]
  by_cases b0 : 50 < (pyStrip (pySlice s 0 1000)).length <;>
    by_cases b1 : 50 < (pyStrip (pySlice s 800 1800)).length <;>
      by_cases b2 : 50 < (pyStrip (pySlice s 1600 2600)).length <;>
        · rw [show (2300 + 1 : Nat) = 2297 + 1 + 1 + 1 + 1 from rfl]
          rw [chunkTextLoop_succ]
          simp only [h0, if_true]
          norm_num only [b0, if_true, if_false]
          rw [chunkTextLoop_succ]
          simp only [h800, if_true]
          norm_num only [b1, if_true, if_false]
          rw [chunkTextLoop_succ]
          simp only [h1600, if_true]
          norm_num only [b2, if_true, if_false]
          rw [chunkTextLoop_succ]
          simp only [h2400, if_false]
          refine ⟨_, rfl, ?_⟩
          simp [List.filter, b0, b1, b2]

/-- Witness for C8 at a concrete 2300-character text. -/
theorem C8_chunk_starts_witness :
    (List.replicate 2300 'a').length = 2300 ∧
      ∃ l, chunk_text 1000 200 1 (List.replicate 2300 'a') = some l ∧
        l.map PChunk.char_start =
          ([0, 800, 1600] : List Int).filter
            (fun st =>
              decide (50 < (pyStrip (pySlice (List.replicate 2300 'a') st (st + 1000))).length)) :=
  ⟨List.length_replicate 2300 'a', C8_chunk_starts _ (List.length_replicate 2300 'a')⟩

theorem insertAscBy_perm {β κ : Type _} [LinearOrder κ] (key : β → κ) (x : β) :
    ∀ l : List β, (insertAscBy key x l).Perm (x :: l)
  | [] => List.Perm.refl _
  | y :: ys => by
    rw [insertAscBy]
    split
    · exact List.Perm.refl _
    · exact ((insertAscBy_perm key x ys).cons y).trans (List.Perm.swap x y ys)

theorem sortAscBy_perm {β κ : Type _} [LinearOrder κ] (key : β → κ) :
    ∀ l : List β, (sortAscBy key l).Perm l
  | [] => List.Perm.refl _
  | x :: xs =>
    (insertAscBy_perm key x (sortAscBy key xs)).trans ((sortAscBy_perm key xs).cons x)

theorem insertAscBy_sorted {β κ : Type _} [LinearOrder κ] (key : β → κ) (x : β) :
    ∀ l : List β, l.Pairwise (fun a b => key a ≤ key b) →
      (insertAscBy key x l).Pairwise (fun a b => key a ≤ key b) := by
  intro l
  induction l with
  | nil => intro _; simp [insertAscBy]
  | cons y ys ih =>
    intro hp
    rw [insertAscBy]
    split
    · rename_i hxy
      refine List.Pairwise.cons ?_ hp
      intro z hz
      rcases List.mem_cons.mp hz with rfl | hz
      · exact hxy
      · exact le_trans hxy (List.rel_of_pairwise_cons hp hz)
    · rename_i hxy
      have hyx : key y ≤ key x := le_of_not_le hxy
      refine List.Pairwise.cons ?_ (ih hp.tail)
      intro z hz
      have := (insertAscBy_perm key x ys).mem_iff.mp hz
      rcases List.mem_cons.mp this with rfl | hz'
      · exact hyx
      · exact List.rel_of_pairwise_cons hp hz'

theorem sortAscBy_sorted {β κ : Type _} [LinearOrder κ] (key : β → κ) :
    ∀ l : List β, (sortAscBy key l).Pairwise (fun a b => key a ≤ key b)
  | [] => List.Pairwise.nil
  | x :: xs => insertAscBy_sorted key x _ (sortAscBy_sorted key xs)

/-- Two lists that are permutations of each other, both sorted (weakly) by a
key, are equal as soon as one of them has no duplicate keys. -/
theorem eq_of_perm_of_sorted_key {β κ : Type _} [LinearOrder κ] (key : β → κ) :
    ∀ {l₁ l₂ : List β}, l₁.Perm l₂ → l₁.Pairwise (fun a b => key a ≤ key b) →
      l₂.Pairwise (fun a b => key a ≤ key b) → (l₁.map key).Nodup → l₁ = l₂ := by
  intro l₁
  induction l₁ with
  | nil => intro l₂ hp _ _ _; exact hp.nil_eq
  | cons a t ih =>
    intro l₂ hp h1 h2 hnd
    cases l₂ with
    | nil => exact absurd hp.symm.nil_eq (by simp)
    | cons b t₂ =>
      have hnd' : key a ∉ t.map key ∧ (t.map key).Nodup := by
        rw [List.map_cons, List.nodup_cons] at hnd; exact hnd
      have hab : a = b := by
        have ha2 : a ∈ b :: t₂ := hp.mem_iff.mp (List.mem_cons_self a t)
        rcases List.mem_cons.mp ha2 with rfl | hat₂
        · rfl
        · have hb1 : b ∈ a :: t := hp.mem_iff.mpr (List.mem_cons_self b t₂)
          rcases List.mem_cons.mp hb1 with rfl | hbt
          · rfl
          · have h₁ : key a ≤ key b := List.rel_of_pairwise_cons h1 hbt
            have h₂ : key b ≤ key a := List.rel_of_pairwise_cons h2 hat₂
            have hk : key a = key b := le_antisymm h₁ h₂
            exact absurd (hk ▸ List.mem_map_of_mem key hbt) hnd'.1
      subst hab
      have := ih (hp.cons_inv) h1.tail h2.tail hnd'.2
      rw [this]

theorem tagged_sorted {α : Type _} (emb : String → α) (b : List String) :
    (tagged emb b).Pairwise (fun p q => p.1 ≤ q.1) := by
  rw [List.pairwise_iff_getElem]
  intro i j hi hj hij
  simp only [tagged] at hi hj ⊢
  simp [List.getElem_enum]
  omega

theorem tagged_nodup_keys {α : Type _} (emb : String → α) (b : List String) :
    ((tagged emb b).map Prod.fst).Nodup := by
  rw [tagged, List.enum_map_fst]
  exact List.nodup_range _

theorem embedBatches_eq {α : Type _} (emb : String → α)
    (provider : List String → List (Nat × α)) (bs : Nat) (hbs : 0 < bs)
    (hprov : ∀ b, (provider b).Perm (tagged emb b)) :
    ∀ (fuel : Nat) (texts : List String), texts.length ≤ fuel →
      embedBatches provider bs fuel texts = texts.map emb := by
  intro fuel
  induction fuel with
  | zero =>
    intro texts h
    have : texts = [] := List.eq_nil_of_length_eq_zero (Nat.le_zero.mp h)
    subst this; rfl
  | succ n ih =>
    intro texts h
    cases texts with
    | nil => rfl
    | cons t ts =>
      rw [embedBatches]
      have hsort : sortAscBy Prod.fst (provider ((t :: ts).take bs)) =
          tagged emb ((t :: ts).take bs) :=
        eq_of_perm_of_sorted_key Prod.fst
          ((sortAscBy_perm Prod.fst _).trans (hprov _))
          (sortAscBy_sorted Prod.fst _) (tagged_sorted emb _)
          (((sortAscBy_perm Prod.fst _).trans (hprov _)).map Prod.fst |>.nodup_iff.mpr
            (tagged_nodup_keys emb _))
      rw [hsort, tagged, List.enum_map_snd]
      have hdrop : ((t :: ts).drop bs).length ≤ n := by
        rw [List.length_drop, List.length_cons]
        simp only [List.length_cons] at h
        omega
      rw [ih _ hdrop, ← List.map_append, List.take_append_drop]

/-- C2: for every ordered list of texts, every positive batch size, and every
provider that returns each batch's embeddings index-tagged in an arbitrary
per-batch order, `generate_embeddings` returns the embeddings in input order:
the output at position i is the embedding of input text i. -/
theorem C2_generate_embeddings_order {α : Type _} (emb : String → α)
    (provider : List String → List (Nat × α)) (texts : List String)
    (batch_size : Nat) (hbs : 0 < batch_size)
    (hprov : ∀ b, (provider b).Perm (tagged emb b)) :
    generate_embeddings provider texts batch_size = some (texts.map emb) := by
  rw [generate_embeddings, if_neg (Nat.pos_iff_ne_zero.mp hbs),
    embedBatches_eq emb provider batch_size hbs hprov texts.length texts le_rfl]

/-- Witness for C2: three texts, batch size 2, a provider that reverses each
batch's tagged results. -/
theorem C2_generate_embeddings_order_witness :
    0 < 2 ∧
      generate_embeddings (fun b => (tagged String.length b).reverse)
          ["a", "bb", "ccc"] 2 =
        some (["a", "bb", "ccc"].map String.length) :=
  ⟨by decide,
    C2_generate_embeddings_order String.length
      (fun b => (tagged String.length b).reverse) ["a", "bb", "ccc"] 2
      (by decide) (fun b => List.reverse_perm _)⟩

theorem insertDescBy_perm {β κ : Type _} [LinearOrder κ] (key : β → κ) (x : β) :
    ∀ l : List β, (insertDescBy key x l).Perm (x :: l)
  | [] => List.Perm.refl _
  | y :: ys => by
    rw [insertDescBy]
    split
    · exact List.Perm.refl _
    · exact ((insertDescBy_perm key x ys).cons y).trans (List.Perm.swap x y ys)

theorem sortDescBy_perm {β κ : Type _} [LinearOrder κ] (key : β → κ) :
    ∀ l : List β, (sortDescBy key l).Perm l
  | [] => List.Perm.refl _
  | x :: xs =>
    (insertDescBy_perm key x (sortDescBy key xs)).trans ((sortDescBy_perm key xs).cons x)

theorem insertDescBy_sorted {β κ : Type _} [LinearOrder κ] (key : β → κ) (x : β) :
    ∀ l : List β, l.Pairwise (fun a b => key b ≤ key a) →
      (insertDescBy key x l).Pairwise (fun a b => key b ≤ key a) := by
  intro l
  induction l with
  | nil => intro _; simp [insertDescBy]
  | cons y ys ih =>
    intro hp
    rw [insertDescBy]
    split
    · rename_i hyx
      refine List.Pairwise.cons ?_ hp
      intro z hz
      rcases List.mem_cons.mp hz with rfl | hz
      · exact hyx
      · exact le_trans (List.rel_of_pairwise_cons hp hz) hyx
    · rename_i hyx
      have hxy : key x ≤ key y := le_of_not_le hyx
      refine List.Pairwise.cons ?_ (ih hp.tail)
      intro z hz
      have := (insertDescBy_perm key x ys).mem_iff.mp hz
      rcases List.mem_cons.mp this with rfl | hz2
      · exact hxy
      · exact List.rel_of_pairwise_cons hp hz2

theorem sortDescBy_sorted {β κ : Type _} [LinearOrder κ] (key : β → κ) :
    ∀ l : List β, (sortDescBy key l).Pairwise (fun a b => key b ≤ key a)
  | [] => List.Pairwise.nil
  | x :: xs => insertDescBy_sorted key x _ (sortDescBy_sorted key xs)

theorem insertDescBy_filter_key {β κ : Type _} [LinearOrder κ]
    [DecidableEq κ] (key : β → κ) (x : β) (q : κ) :
    ∀ l : List β, (insertDescBy key x l).filter (fun h => decide (key h = q)) =
      if key x = q then x :: l.filter (fun h => decide (key h = q))
      else l.filter (fun h => decide (key h = q)) := by
  intro l
  induction l with
  | nil => by_cases hx : key x = q <;> simp [insertDescBy, List.filter, hx]
  | cons y ys ih =>
    rw [insertDescBy]
    split
    · by_cases hx : key x = q <;> simp [List.filter_cons, hx]
    · rename_i hyx
      have hxy : key x < key y := lt_of_not_le hyx
      by_cases hx : key x = q
      · have hy : ¬ key y = q := by
          intro hy; rw [hx, ← hy] at hxy; exact lt_irrefl _ hxy
        simp [List.filter_cons, hx, hy, ih]
      · by_cases hy : key y = q <;> simp [List.filter_cons, hx, hy, ih]

theorem sortDescBy_filter_key {β κ : Type _} [LinearOrder κ]
    [DecidableEq κ] (key : β → κ) (q : κ) :
    ∀ l : List β, (sortDescBy key l).filter (fun h => decide (key h = q)) =
      l.filter (fun h => decide (key h = q)) := by
  intro l
  induction l with
  | nil => rfl
  | cons x xs ih =>
    rw [sortDescBy, insertDescBy_filter_key]
    by_cases hx : key x = q <;> simp [List.filter_cons, hx, ih]

/-- C3: the merged context list is the concatenation of the per-source hit
lists sorted by similarity descending; the sort is stable (elements of equal
similarity keep their encounter order, stated via the filter
characterisation), scores are not transformed; and on the concrete hits with
similarities 0.9, 0.5, 0.7 the ranked result is exactly [0.9, 0.7, 0.5]. -/
theorem C3_search_context_merge (hw pdf typed : List Hit) :
    (search_context_for_shape_ids hw pdf typed).Perm (hw ++ pdf ++ typed) ∧
      (search_context_for_shape_ids hw pdf typed).Pairwise
        (fun a b => hitKey b ≤ hitKey a) ∧
      (∀ q : ℚ, (search_context_for_shape_ids hw pdf typed).filter
            (fun h => decide (hitKey h = q)) =
          (hw ++ pdf ++ typed).filter (fun h => decide (hitKey h = q))) ∧
      (search_context_for_shape_ids [⟨"handwriting", 1, some (9/10)⟩]
            [⟨"pdf", 2, some (1/2)⟩] [⟨"typed", 3, some (7/10)⟩]).map hitKey =
        [9/10, 7/10, 1/2] :=
  ⟨sortDescBy_perm hitKey _, sortDescBy_sorted hitKey _,
    fun q => sortDescBy_filter_key hitKey q _, by
    norm_num [search_context_for_shape_ids, sortDescBy, insertDescBy, hitKey]⟩

theorem roundLoop_allExecuted (turn : Nat → RoundOutcome)
    (h : ∀ n, turn n = RoundOutcome.toolExecuted) :
    ∀ left opened, roundLoop turn left opened = ⟨opened + left, false, true⟩ := by
  intro left
  induction left with
  | zero => intro opened; rfl
  | succ n ih =>
    intro opened
    rw [roundLoop, h opened, ih (opened + 1),
      show opened + 1 + n = opened + (n + 1) from by omega]

theorem roundLoop_rounds_le (turn : Nat → RoundOutcome) :
    ∀ left opened, (roundLoop turn left opened).rounds ≤ opened + left := by
  intro left
  induction left with
  | zero => intro opened; simp [roundLoop]
  | succ n ih =>
    intro opened
    rw [roundLoop]
    cases turn opened with
    | toolExecuted => exact le_trans (ih (opened + 1)) (by omega)
    | finished r =>
      show opened + 1 ≤ opened + (n + 1)
      omega
    | streamError =>
      show opened + 1 ≤ opened + (n + 1)
      omega

/-- The loop never opens an 11th round, whatever the provider does. -/
theorem generate_c1_response_round_cap (turn : Nat → RoundOutcome) :
    (generate_c1_response_rounds turn).rounds ≤ 10 :=
  roundLoop_rounds_le turn 10 0

/-- C4: when every round ends with finish reason `tool_calls` and an executed
tool call, the orchestrator opens exactly 10 provider rounds and stops;
reaching the cap is normal completion (the `[DONE]` event is emitted and no
error event is). -/
theorem C4_round_cap (turn : Nat → RoundOutcome)
    (h : ∀ n, turn n = RoundOutcome.toolExecuted) :
    generate_c1_response_rounds turn =
      { rounds := 10, errorEvent := false, doneEvent := true } :=
  roundLoop_allExecuted turn h 10 0

/-- Witness for C4: the provider that executes a tool call every round. -/
theorem C4_round_cap_witness :
    generate_c1_response_rounds (fun _ => RoundOutcome.toolExecuted) =
      { rounds := 10, errorEvent := false, doneEvent := true } :=
  C4_round_cap (fun _ => RoundOutcome.toolExecuted) (fun _ => rfl)

theorem jsonLoadsFrag_blank (s : String) (h : pyStripS s = "") :
    jsonLoadsFrag s = Option.none := by
  rw [jsonLoadsFrag, h]
  rfl

theorem jsonLoadsFrag_not_dict_input (s : String) (v : PyVal)
    (hv : jsonLoadsFrag s = Option.some v)
    (hbrace : (pyStripS s).toList.head? = some '\x7b') : v.isDict = true := by
  rw [jsonLoadsFrag] at hv
  split at hv
  · rename_i hcond
    exfalso
    obtain ⟨hne, hdig⟩ := hcond
    cases hl : (pyStripS s).toList with
    | nil => exact hne hl
    | cons c cs =>
      rw [hl] at hbrace hdig
      simp only [List.head?] at hbrace
      have : Char.isDigit c = true := by
        have := List.all_eq_true.mp hdig c (List.mem_cons_self c cs)
        exact this
      rw [Option.some.injEq] at hbrace
      subst hbrace
      simp [Char.isDigit] at this
  · exact absurd hv (by simp)

/-- C9 counterexample: with the argument string `"5"` (which `json.loads`
parses as the integer 5), `parse_tool_arguments` returns a non-dict value,
contradicting "returns a dict ... and {} in every other case". -/
theorem C9_nondict_counterexample :
    parse_tool_arguments jsonLoadsFrag (PyVal.str "5") = PyVal.int 5 ∧
      (PyVal.int 5).isDict = false := by
  constructor
  · rfl
  · rfl

/-- C9 (amended): `parse_tool_arguments` never raises and returns the
arguments dict when already parsed, the parsed JSON value (not necessarily a
dict) when the field is a string the parser accepts, and `{}` in every other
case — equivalently, it agrees with the spec-side contract for every parser
that rejects blank strings (as `json.loads` does). -/
theorem C9_parse_tool_arguments (jsonLoads : String → Option PyVal)
    (hblank : ∀ s : String, pyStripS s = "" → jsonLoads s = Option.none)
    (args : PyVal) :
    parse_tool_arguments jsonLoads args = parse_tool_arguments_spec jsonLoads args := by
  cases args with
  | str s =>
    rw [parse_tool_arguments, parse_tool_arguments_spec]
    by_cases hs : pyStripS s = ""
    · rw [if_pos hs, hblank s hs]
      rfl
    · rw [if_neg hs]
      cases jsonLoads s <;> rfl
  | none => rfl
  | bool b => rfl
  | int i => rfl
  | list l => rfl
  | dict d => rfl

/-- Witness for C9 (amended) at the concrete parser fragment and a
whitespace-only argument string. -/
theorem C9_parse_tool_arguments_witness :
    parse_tool_arguments jsonLoadsFrag (PyVal.str " ") =
      parse_tool_arguments_spec jsonLoadsFrag (PyVal.str " ") :=
  C9_parse_tool_arguments jsonLoadsFrag jsonLoadsFrag_blank (PyVal.str " ")

theorem pyStripS_empty : pyStripS "" = "" := rfl

theorem pyStripS_ne_empty_of {s : String} (h : pyStripS s ≠ "") : s ≠ "" := by
  intro he
  exact h (he ▸ pyStripS_empty)

/-- C5 counterexample: a call whose argument string is empty — in particular
shorter than 3 characters — is not discarded by the validation (the format
checks are skipped for empty argument strings): for a tool name other than
`getImageSrc` the call passes validation and the accumulator state is not
reset, contradicting the claim's "reset to idle" for that listed failure
case. -/
theorem C5_short_args_counterexample :
    ("" : String).length < 3 ∧
      validate_finish jsonLoadsFrag { name := "someTool", arguments := "" } =
        VR.execute "someTool" (PyVal.dict []) ∧
      finish_step jsonLoadsFrag
          (Option.some { name := "someTool", arguments := "" }) =
        { newCall := Option.some { name := "someTool", arguments := "" },
          executed := false, errorEvent := false } :=
  ⟨by decide, rfl, rfl⟩

/-- C5 (amended): any accumulated call failing the validation conditions — an
empty trimmed name; a non-empty argument string whose trimmed form is shorter
than 3 characters, does not start with a left brace, or does not end with a
right brace; a non-blank argument string the JSON parser rejects; or a
`getImageSrc` call whose parsed arguments lack a truthy `altText` — is
discarded silently: no tool executes, no error event is produced, the
accumulator is reset to idle, and the round then terminates as a normal
completion (`[DONE]`, no error). -/
theorem C5_validation_discards (jsonLoads : String → Option PyVal)
    (hObj : ∀ s v, jsonLoads s = Option.some v →
      (pyStripS s).toList.head? = some '\x7b' → v.isDict = true)
    (tc : ToolCall) (hfail : finishFails jsonLoads tc) :
    validate_finish jsonLoads tc = VR.discarded ∧
      finish_step jsonLoads (Option.some tc) =
        { newCall := Option.none, executed := false, errorEvent := false } ∧
      generate_c1_response_rounds
          (fun _ => RoundOutcome.finished (some "tool_calls")) =
        { rounds := 1, errorEvent := false, doneEvent := true } := by
  have hv : validate_finish jsonLoads tc = VR.discarded := by
    by_cases h1 : pyStripS tc.name = ""
    · rw [validate_finish, if_pos h1]
    · by_cases h2 : tc.arguments ≠ "" ∧
          ((pyStripS tc.arguments).length < 3 ∨
            (pyStripS tc.arguments).toList.head? ≠ some '\x7b' ∨
            (pyStripS tc.arguments).toList.getLast? ≠ some '\x7d')
      · rw [validate_finish, if_neg h1, if_pos h2]
      · -- name non-empty and format checks passed
        rcases hfail with hfail | hfail | hfail | hfail
        · exact absurd hfail h1
        · exact absurd hfail h2
        · -- parser rejects a non-blank argument string
          obtain ⟨hraw, hjson⟩ := hfail
          have hargs : truthy (parse_tool_arguments jsonLoads (PyVal.str tc.arguments)) =
              false := by
            rw [parse_tool_arguments, if_neg hraw, hjson]
            rfl
          rw [validate_finish, if_neg h1, if_neg h2,
            if_pos ⟨hargs, pyStripS_ne_empty_of hraw, hraw⟩]
        · -- getImageSrc without a truthy altText
          obtain ⟨hname, halt⟩ := hfail
          by_cases h3 : truthy (parse_tool_arguments jsonLoads (PyVal.str tc.arguments)) =
              false ∧ tc.arguments ≠ "" ∧ pyStripS tc.arguments ≠ ""
          · rw [validate_finish, if_neg h1, if_neg h2, if_pos h3]
          · rcases halt with halt | halt
            · -- parsed arguments falsy: either the third check already fired,
              -- or the argument string is empty/blank and the getImageSrc
              -- truthiness check fires
              rw [validate_finish, if_neg h1, if_neg h2, if_neg h3, if_pos hname,
                if_pos halt]
            · by_cases h4 : truthy (parse_tool_arguments jsonLoads
                  (PyVal.str tc.arguments)) = false
              · rw [validate_finish, if_neg h1, if_neg h2, if_neg h3, if_pos hname,
                  if_pos h4]
              · -- parsed arguments truthy: show they form a dict via hObj
                have hraw : tc.arguments ≠ "" := by
                  intro he
                  apply h4
                  rw [he]
                  rfl
                have hbrace : (pyStripS tc.arguments).toList.head? = some '\x7b' := by
                  rcases not_and_or.mp h2 with hc | hc
                  · exact absurd hraw hc
                  · push_neg at hc
                    exact hc.2.1
                have hrawS : pyStripS tc.arguments ≠ "" := by
                  intro he
                  rw [he] at hbrace
                  simp at hbrace
                have hdict : ∃ d, parse_tool_arguments jsonLoads
                    (PyVal.str tc.arguments) = PyVal.dict d := by
                  rw [parse_tool_arguments, if_neg hrawS]
                  cases hj : jsonLoads tc.arguments with
                  | none =>
                    exfalso
                    apply h4
                    rw [parse_tool_arguments, if_neg hrawS, hj]
                    rfl
                  | some v =>
                    have := hObj _ _ hj hbrace
                    cases v with
                    | dict d => exact ⟨d, rfl⟩
                    | none => simp [PyVal.isDict] at this
                    | bool b => simp [PyVal.isDict] at this
                    | int i => simp [PyVal.isDict] at this
                    | str s => simp [PyVal.isDict] at this
                    | list l => simp [PyVal.isDict] at this
                obtain ⟨d, hd⟩ := hdict
                rw [hd, getAltText] at halt
                rw [validate_finish, if_neg h1, if_neg h2, if_neg h3, if_pos hname,
                  if_neg (hd ▸ h4), hd]
                show (if truthy (pyDictGet d "altText") = false then VR.discarded
                    else VR.execute (pyStripS tc.name) (PyVal.dict d)) = VR.discarded
                rw [if_pos halt]
  refine ⟨hv, ?_, rfl⟩
  rw [finish_step, hv]
/-- Witness for C5 (amended) at a concrete discarded call: `getImageSrc` with
the two-character argument string `"xy"`. -/
theorem C5_validation_discards_witness :
    finishFails jsonLoadsFrag { name := "getImageSrc", arguments := "xy" } ∧
      validate_finish jsonLoadsFrag { name := "getImageSrc", arguments := "xy" } =
        VR.discarded ∧
      finish_step jsonLoadsFrag
          (Option.some { name := "getImageSrc", arguments := "xy" }) =
        { newCall := Option.none, executed := false, errorEvent := false } ∧
      generate_c1_response_rounds
          (fun _ => RoundOutcome.finished (some "tool_calls")) =
        { rounds := 1, errorEvent := false, doneEvent := true } := by
  have hfail : finishFails jsonLoadsFrag { name := "getImageSrc", arguments := "xy" } :=
    Or.inr (Or.inl ⟨by decide, Or.inl (by decide)⟩)
  exact ⟨hfail,
    C5_validation_discards jsonLoadsFrag jsonLoadsFrag_not_dict_input _ hfail⟩

theorem insertInBatches_eq {ρ : Type _} (bs : Nat) (hbs : 0 < bs) :
    ∀ (fuel : Nat) (rows table : List ρ) (count : Nat), rows.length ≤ fuel →
      insertInBatches bs fuel rows table count = (table ++ rows, count + rows.length) := by
  intro fuel
  induction fuel with
  | zero =>
    intro rows table count h
    have : rows = [] := List.eq_nil_of_length_eq_zero (Nat.le_zero.mp h)
    subst this
    simp [insertInBatches]
  | succ n ih =>
    intro rows table count h
    cases rows with
    | nil => simp [insertInBatches]
    | cons r rest =>
      rw [insertInBatches]
      have hdrop : ((r :: rest).drop bs).length ≤ n := by
        rw [List.length_drop, List.length_cons]
        simp only [List.length_cons] at h
        omega
      rw [ih _ _ _ hdrop, List.append_assoc, List.take_append_drop]
      have : ((r :: rest).take bs).length + ((r :: rest).drop bs).length =
          (r :: rest).length := by
        rw [List.length_take, List.length_drop]
        omega
      rw [Nat.add_assoc, this]

/-- C10: both chunk writers pair chunks and embeddings positionally and
return exactly `min (number of chunks) (number of embeddings)` regardless of
the batching into 50-row inserts; unequal lengths silently drop the excess
(the rows appended are the zip of the two lists) rather than raising. -/
theorem C10_insert_chunks_min (table : List PdfChunkRow) (htable : List HwChunkRow)
    (document_id note_id : Nat) (chunks : List PChunk) (hchunks : List HChunk)
    (embeddings : List (List Int)) :
    insert_chunks table document_id chunks embeddings =
      (table ++ List.zipWith
        (fun (c : PChunk) (e : List Int) =>
          PdfChunkRow.mk document_id c.page_number c.chunk_index c.text.asString e)
        chunks embeddings,
      min chunks.length embeddings.length) ∧
    insert_handwriting_chunks htable note_id hchunks embeddings =
      (htable ++ List.zipWith
        (fun (c : HChunk) (e : List Int) =>
          HwChunkRow.mk note_id c.chunk_index c.text.asString e)
        hchunks embeddings,
      min hchunks.length embeddings.length) := by
  constructor
  · rw [insert_chunks, insertInBatches_eq 50 (by norm_num) _ _ _ _ le_rfl]
    rw [List.length_zipWith]
    simp
  · rw [insert_handwriting_chunks]
    by_cases h : hchunks.isEmpty || embeddings.isEmpty
    · rw [if_pos h]
      rcases Bool.or_eq_true_iff.mp h with h1 | h1
      · rw [List.isEmpty_iff.mp h1]
        simp
      · rw [List.isEmpty_iff.mp h1]
        simp
    · rw [if_neg h]
      rw [insertInBatches_eq 50 (by norm_num) _ _ _ _ le_rfl]
      rw [List.length_zipWith]
      simp

/-- C7 counterexample: a sync with no embed-able text leaves the note's
previous chunks in place (the handler returns early), although a
delete-all-then-insert replace — which the claim says happens on every
sync — would have deleted them. -/
theorem C7_empty_sync_counterexample :
    (sync_typed_note
        { notes := [⟨1, "f"⟩], chunks := [⟨1, 0, "old", []⟩] } "f" [] []).1.chunks =
      [⟨1, 0, "old", []⟩] ∧
    (replace_typed_note_chunks [⟨1, 0, "old", []⟩] 1 [] []).1 = [] := by
  constructor
  · rfl
  · rfl

/-- C7 (amended): on every sync with at least one embed-able text, the note
is upserted by frame id (the frame's existing note keeps its id, else a fresh
note is created) and the note's chunk set is fully replaced — every surviving
chunk of that note is one of the new rows, never merged with the previous
set; a sync with no embed-able text upserts the note but leaves the existing
chunks untouched. -/
theorem C7_sync_replaces_chunks (db : TypedDb) (frame_id : String)
    (chunk_texts : List String) (embeddings : List (List Int))
    (h : chunk_texts ≠ []) :
    (sync_typed_note db frame_id chunk_texts embeddings).1.notes =
        (insert_typed_note db.notes frame_id).1 ∧
      (∃ n, n ∈ (insert_typed_note db.notes frame_id).1 ∧
        n.id = (insert_typed_note db.notes frame_id).2 ∧ n.frame_id = frame_id) ∧
      (sync_typed_note db frame_id chunk_texts embeddings).1.chunks =
        db.chunks.filter
            (fun r => decide (r.note_id ≠ (insert_typed_note db.notes frame_id).2)) ++
          List.zipWith
            (fun (c : ChunkPayload) (e : List Int) =>
              TypedChunkRow.mk (insert_typed_note db.notes frame_id).2
                c.chunk_index c.text e)
            (chunk_texts.enum.map (fun p => ChunkPayload.mk p.2 p.1)) embeddings ∧
      (∀ r ∈ (sync_typed_note db frame_id chunk_texts embeddings).1.chunks,
        r.note_id = (insert_typed_note db.notes frame_id).2 →
          r ∈ List.zipWith
            (fun (c : ChunkPayload) (e : List Int) =>
              TypedChunkRow.mk (insert_typed_note db.notes frame_id).2
                c.chunk_index c.text e)
            (chunk_texts.enum.map (fun p => ChunkPayload.mk p.2 p.1)) embeddings) := by
  have hne : chunk_texts.isEmpty = false := by
    cases chunk_texts with
    | nil => exact absurd rfl h
    | cons a l => rfl
  have hpayload : (chunk_texts.enum.map
      (fun p => ChunkPayload.mk p.2 p.1)).isEmpty = false := by
    cases chunk_texts with
    | nil => exact absurd rfl h
    | cons a l => rfl
  have hchunks : (sync_typed_note db frame_id chunk_texts embeddings).1.chunks =
      db.chunks.filter
          (fun r => decide (r.note_id ≠ (insert_typed_note db.notes frame_id).2)) ++
        List.zipWith
          (fun (c : ChunkPayload) (e : List Int) =>
            TypedChunkRow.mk (insert_typed_note db.notes frame_id).2
              c.chunk_index c.text e)
          (chunk_texts.enum.map (fun p => ChunkPayload.mk p.2 p.1)) embeddings := by
    rw [sync_typed_note]
    simp only [hne, Bool.false_eq_true, if_false]
    rw [replace_typed_note_chunks, if_neg (by rw [hpayload]; simp),
      insertInBatches_eq 50 (by norm_num) _ _ _ _ le_rfl]
  refine ⟨?_, ?_, hchunks, ?_⟩
  · rw [sync_typed_note]
    simp only [hne, Bool.false_eq_true, if_false]
  · rw [insert_typed_note]
    cases hfind : db.notes.find? (fun n => decide (n.frame_id = frame_id)) with
    | some n =>
      refine ⟨n, List.mem_of_find?_eq_some hfind, rfl, ?_⟩
      have := List.find?_some hfind
      simpa using this
    | none => exact ⟨⟨freshNoteId db.notes, frame_id⟩, by simp, rfl, rfl⟩
  · intro r hr hrid
    rw [hchunks] at hr
    rcases List.mem_append.mp hr with hr | hr
    · have := (List.mem_filter.mp hr).2
      simp only [decide_eq_true_eq] at this
      exact absurd hrid this
    · exact hr

/-- Witness for C7 at a one-shape sync against a store that already holds a
chunk for the frame's note. -/
theorem C7_sync_replaces_chunks_witness :
    (sync_typed_note { notes := [⟨1, "f"⟩], chunks := [⟨1, 0, "old", []⟩] }
          "f" ["x"] [[7]]).1.notes =
        (insert_typed_note [⟨1, "f"⟩] "f").1 ∧
      (∃ n, n ∈ (insert_typed_note [⟨1, "f"⟩] "f").1 ∧
        n.id = (insert_typed_note [⟨1, "f"⟩] "f").2 ∧ n.frame_id = "f") ∧
      (sync_typed_note { notes := [⟨1, "f"⟩], chunks := [⟨1, 0, "old", []⟩] }
          "f" ["x"] [[7]]).1.chunks =
        List.filter
            (fun r => decide (r.note_id ≠ (insert_typed_note [⟨1, "f"⟩] "f").2))
            [⟨1, 0, "old", []⟩] ++
          List.zipWith
            (fun (c : ChunkPayload) (e : List Int) =>
              TypedChunkRow.mk (insert_typed_note [⟨1, "f"⟩] "f").2
                c.chunk_index c.text e)
            ((["x"] : List String).enum.map (fun p => ChunkPayload.mk p.2 p.1)) [[7]] ∧
      (∀ r ∈ (sync_typed_note { notes := [⟨1, "f"⟩], chunks := [⟨1, 0, "old", []⟩] }
          "f" ["x"] [[7]]).1.chunks,
        r.note_id = (insert_typed_note [⟨1, "f"⟩] "f").2 →
          r ∈ List.zipWith
            (fun (c : ChunkPayload) (e : List Int) =>
              TypedChunkRow.mk (insert_typed_note [⟨1, "f"⟩] "f").2
                c.chunk_index c.text e)
            ((["x"] : List String).enum.map (fun p => ChunkPayload.mk p.2 p.1)) [[7]]) :=
  C7_sync_replaces_chunks { notes := [⟨1, "f"⟩], chunks := [⟨1, 0, "old", []⟩] }
    "f" ["x"] [[7]] (by decide)

/-- C6 counterexample: the fallback listing returns the document's chunks
ordered by page number — texts `a, b, c` with chunk indices 0, 1, 0 — while a
listing "ordered by chunk index", as the claim states, would return
`a, c, b`; the two orders differ. -/
theorem C6_pdf_order_counterexample :
    (ask_stream_selection_context dbC6 ["s1"] Option.none).map CtxEntry.text =
        ["a", "b", "c"] ∧
      (claim_pdf_listing dbC6 ["s1"] 5).map CtxEntry.text = ["a", "c", "b"] ∧
      (ask_stream_selection_context dbC6 ["s1"] Option.none).map CtxEntry.text ≠
        (claim_pdf_listing dbC6 ["s1"] 5).map CtxEntry.text := by
  refine ⟨?_, ?_, ?_⟩ <;> decide

/-- C6 (amended): when the semantic path raises, the request degrades to the
non-semantic listing with per-source limits 5 instead of failing; each
matched parent contributes at most N chunks — ordered by chunk index for
handwriting and typed notes and by page number for PDF documents — and every
entry's parent comes from the same shape-id lookups the semantic search
scans. -/
theorem C6_fallback_listing (db : Db) (shape_ids : List String) :
    ask_stream_selection_context db shape_ids Option.none =
        get_context_for_shape_ids db shape_ids 5 5 5 ∧
      (∀ (note : HwNote) (limit : Nat),
        ((hwBlock db limit note).map (fun e => e.chunk_index.getD 0)).Pairwise
            (· ≤ ·) ∧
          (hwBlock db limit note).length ≤ limit) ∧
      (∀ (note : TypedNote) (limit : Nat),
        ((typedBlock db limit note).map (fun e => e.chunk_index.getD 0)).Pairwise
            (· ≤ ·) ∧
          (typedBlock db limit note).length ≤ limit) ∧
      (∀ (link : PdfLink) (limit : Nat),
        ((pdfBlock db limit link).map (fun e => e.page_number.getD 0)).Pairwise
            (· ≤ ·) ∧
          (pdfBlock db limit link).length ≤ limit) ∧
      (∀ e ∈ get_context_for_shape_ids db shape_ids 5 5 5,
        (e.source_type = "handwriting" ∧
            ∃ n ∈ get_hw_notes db shape_ids, e.parent_id = n.id) ∨
          (e.source_type = "pdf" ∧
            ∃ l ∈ db_pdf_links db shape_ids, e.parent_id = l.document_id) ∨
          (e.source_type = "typed" ∧
            ∃ n ∈ get_typed_notes db shape_ids, e.parent_id = n.id)) := by
  refine ⟨rfl, ?_, ?_, ?_, ?_⟩
  · intro note limit
    constructor
    · rw [hwBlock, List.map_map]
      have := List.Pairwise.sublist (List.take_sublist limit _)
        (sortAscBy_sorted HwChunkRow.chunk_index
          (db.hw_chunks.filter (fun c => decide (c.note_id = note.id))))
      refine this.map _ ?_
      intro a b h
      simpa using h
    · rw [hwBlock, List.length_map]
      exact List.length_take_le _ _
  · intro note limit
    constructor
    · rw [typedBlock, List.map_map]
      have := List.Pairwise.sublist (List.take_sublist limit _)
        (sortAscBy_sorted TypedChunkRow.chunk_index
          (db.typed_chunks.filter (fun c => decide (c.note_id = note.id))))
      refine this.map _ ?_
      intro a b h
      simpa using h
    · rw [typedBlock, List.length_map]
      exact List.length_take_le _ _
  · intro link limit
    constructor
    · rw [pdfBlock, List.map_map]
      have := List.Pairwise.sublist (List.take_sublist limit _)
        (sortAscBy_sorted PdfChunkRow.page_number
          (db.pdf_chunks.filter (fun c => decide (c.document_id = link.document_id))))
      refine this.map _ ?_
      intro a b h
      simpa using h
    · rw [pdfBlock, List.length_map]
      exact List.length_take_le _ _
  · intro e he
    rw [get_context_for_shape_ids] at he
    rcases List.mem_append.mp he with he | he
    · rcases List.mem_append.mp he with he | he
      · left
        obtain ⟨n, hn, he⟩ := List.mem_flatMap.mp he
        obtain ⟨c, _, rfl⟩ := List.mem_map.mp he
        exact ⟨rfl, n, hn, rfl⟩
      · right; left
        obtain ⟨l, hl, he⟩ := List.mem_flatMap.mp he
        obtain ⟨c, _, rfl⟩ := List.mem_map.mp he
        exact ⟨rfl, l, hl, rfl⟩
    · right; right
      obtain ⟨n, hn, he⟩ := List.mem_flatMap.mp he
      obtain ⟨c, _, rfl⟩ := List.mem_map.mp he
      exact ⟨rfl, n, hn, rfl⟩

end Notebook
